import Mathlib

/-!
Verification of the simplegen repository.

Shallow embedding of the two buffer implementations of the `simplegen` crate:
`CodeBuffer` (src/code_buffer.rs, whose `indent` and `level` fields are `i32`)
and `IndentedPrinter` (src/printer.rs, whose `indent` and `level` fields are
`u32`).

Machine-integer conventions:
* `i32`/`u32` arithmetic is modelled with twos-complement wrapping, the
  behavior Rust guarantees when overflow checks are disabled (the default
  release profile).  `i32` values are `Int`s in `[-2^31, 2^31)`, `u32` values
  are `Nat`s below `2^32`.
* The cast `x as usize` applied to an `i32` sign-extends: a negative `x`
  becomes `2^64 + x`.  This is `i32_as_usize` below.
* `" ".repeat(n)` panics with a capacity overflow when `n` exceeds
  `isize::MAX = 2^63 - 1` (the allocation limit of a Rust collection).  A
  `CodeBuffer` write can reach such an `n` (via the sign-extending cast), so
  `CodeBuffer.println` returns an `Option`, with `none` modelling the panic.
  A `u32` repeat count is at most `2^32 - 1`, far below the limit, so
  `IndentedPrinter.println` is total.
-/

/-- Twos-complement wrapping of an integer into the `i32` range
`[-2^31, 2^31)`.  Rust release-profile `i32` addition and multiplication
produce exactly this value. -/
def i32wrap (x : Int) : Int := (x + 2 ^ 31) % 2 ^ 32 - 2 ^ 31

/-- The Rust cast `x as usize` for an `i32` value `x` (in `[-2^31, 2^31)`):
sign extension to 64 bits reinterpreted as unsigned, i.e. `x` itself when
`0 ≤ x` and `2^64 + x` when `x < 0`. -/
def i32_as_usize (x : Int) : Nat := (x % 2 ^ 64).toNat

/-- The limit above which `" ".repeat(n)` panics (`isize::MAX`). -/
def usizeRepeatLimit : Nat := 2 ^ 63 - 1

/-- `" ".repeat(n)`: a string of `n` spaces. -/
def spaces (n : Nat) : String := String.mk (List.replicate n ' ')

/-- The `CodeBuffer` struct of src/code_buffer.rs.  `buffer` holds the lines
(each already carrying its indentation prefix); `indent` and `level` are the
`i32` fields, kept in `[-2^31, 2^31)` by the operations. -/
structure CodeBuffer where
  buffer : List String
  indent : Int
  level : Int
deriving DecidableEq

/-- `CodeBuffer::new(indent)`: empty buffer, level 0.  The Rust parameter is
an `i32`, so every integer in `[-2^31, 2^31)` — negative widths included — is
accepted. -/
def CodeBuffer.new (indent : Int) : CodeBuffer :=
  { buffer := [], indent := indent, level := 0 }

/-- `CodeBuffer::default()`: indent width 4, level 0, empty buffer. -/
def CodeBuffer.default : CodeBuffer :=
  { buffer := [], indent := 4, level := 0 }

/-- `CodeBuffer::to_string()`: `self.buffer.join("\n")`. -/
def CodeBuffer.to_string (b : CodeBuffer) : String :=
  String.intercalate "\n" b.buffer

/-- `CodeBuffer::println(str)`:
`indent_size = self.indent * self.level` (wrapping `i32` product), then
`" ".repeat(indent_size as usize)` is prepended to `str` and the result is
pushed onto the buffer.  When the sign-extended cast exceeds `isize::MAX`
the `repeat` call panics, modelled as `none`. -/
def CodeBuffer.println (b : CodeBuffer) (str : String) : Option CodeBuffer :=
  let indent_size : Int := i32wrap (b.indent * b.level)
  let count : Nat := i32_as_usize indent_size
  if count ≤ usizeRepeatLimit then
    some { b with buffer := b.buffer ++ [spaces count ++ str] }
  else
    none

/-- `CodeBuffer::indent_right()`: `self.level += 1` (wrapping `i32` add). -/
def CodeBuffer.indent_right (b : CodeBuffer) : CodeBuffer :=
  { b with level := i32wrap (b.level + 1) }

/-- `CodeBuffer::indent_left()`: `if self.level > 0 { self.level -= 1 }`. -/
def CodeBuffer.indent_left (b : CodeBuffer) : CodeBuffer :=
  if b.level > 0 then { b with level := b.level - 1 } else b

/-- `CodeBuffer::println_right(str)`: `self.indent_right(); self.println(str)`. -/
def CodeBuffer.println_right (b : CodeBuffer) (str : String) : Option CodeBuffer :=
  b.indent_right.println str

/-- `CodeBuffer::println_left(str)`: `self.indent_left(); self.println(str)`. -/
def CodeBuffer.println_left (b : CodeBuffer) (str : String) : Option CodeBuffer :=
  b.indent_left.println str

/-- The `IndentedPrinter` struct of src/printer.rs.  Identical to
`CodeBuffer` except that `indent` and `level` are `u32`, modelled as `Nat`s
below `2^32`. -/
structure IndentedPrinter where
  buffer : List String
  indent : Nat
  level : Nat
deriving DecidableEq

/-- `IndentedPrinter::new(indent)`: empty buffer, level 0. -/
def IndentedPrinter.new (indent : Nat) : IndentedPrinter :=
  { buffer := [], indent := indent, level := 0 }

/-- `IndentedPrinter::default()`: indent width 4, level 0, empty buffer. -/
def IndentedPrinter.default : IndentedPrinter :=
  { buffer := [], indent := 4, level := 0 }

/-- `IndentedPrinter::to_string()`: `self.buffer.join("\n")`. -/
def IndentedPrinter.to_string (p : IndentedPrinter) : String :=
  String.intercalate "\n" p.buffer

/-- `IndentedPrinter::println(str)`: as for `CodeBuffer` but with a wrapping
`u32` product; the zero-extending cast keeps the repeat count below `2^32`,
so the operation is total. -/
def IndentedPrinter.println (p : IndentedPrinter) (str : String) : IndentedPrinter :=
  let indent_size : Nat := p.indent * p.level % 2 ^ 32
  { p with buffer := p.buffer ++ [spaces indent_size ++ str] }

/-- `IndentedPrinter::indent_right()`: `self.level += 1` (wrapping `u32` add). -/
def IndentedPrinter.indent_right (p : IndentedPrinter) : IndentedPrinter :=
  { p with level := (p.level + 1) % 2 ^ 32 }

/-- `IndentedPrinter::indent_left()`: `if self.level > 0 { self.level -= 1 }`. -/
def IndentedPrinter.indent_left (p : IndentedPrinter) : IndentedPrinter :=
  if p.level > 0 then { p with level := p.level - 1 } else p

/-- `IndentedPrinter::println_right(str)`. -/
def IndentedPrinter.println_right (p : IndentedPrinter) (str : String) : IndentedPrinter :=
  p.indent_right.println str

/-- `IndentedPrinter::println_left(str)`. -/
def IndentedPrinter.println_left (p : IndentedPrinter) (str : String) : IndentedPrinter :=
  p.indent_left.println str

/-- `IndentedPrinter::flush_to_file(file)`: renders the buffer and hands the
UTF-8 bytes to the single `write` call of the file handle, returning the
result of that call unchanged.  The handle is modelled as the function `write` (the one
`write` call the method makes); the method takes the printer by shared
reference (`&self`), so the buffer state cannot change — the model is a pure
function of `p`. -/
def IndentedPrinter.flush_to_file {ε : Type} (p : IndentedPrinter)
    (write : ByteArray → Except ε Nat) : Except ε Nat :=
  let output := p.to_string
  write output.toUTF8

/-- The operations a client can apply to a buffer (beyond construction and
rendering), shared by both implementations. -/
inductive Op where
  | println (s : String)
  | indent_right
  | indent_left
  | println_right (s : String)
  | println_left (s : String)
deriving DecidableEq

/-- One `CodeBuffer` operation; `none` models a panic. -/
def CodeBuffer.applyOp (b : CodeBuffer) : Op → Option CodeBuffer
  | .println s => b.println s
  | .indent_right => some b.indent_right
  | .indent_left => some b.indent_left
  | .println_right s => b.println_right s
  | .println_left s => b.println_left s

/-- Run a sequence of operations on a `CodeBuffer`; `none` models a panic
anywhere in the sequence. -/
def CodeBuffer.exec (b : CodeBuffer) : List Op → Option CodeBuffer
  | [] => some b
  | op :: ops => (b.applyOp op).bind fun b2 => b2.exec ops

/-- One `IndentedPrinter` operation (all total). -/
def IndentedPrinter.applyOp (p : IndentedPrinter) : Op → IndentedPrinter
  | .println s => p.println s
  | .indent_right => p.indent_right
  | .indent_left => p.indent_left
  | .println_right s => p.println_right s
  | .println_left s => p.println_left s

/-- Run a sequence of operations on an `IndentedPrinter`. -/
def IndentedPrinter.exec (p : IndentedPrinter) : List Op → IndentedPrinter
  | [] => p
  | op :: ops => (p.applyOp op).exec ops

/-- What the spec says rendering does: the entries joined with a single
newline separator, in order; zero entries yield the empty string. -/
def joinNl : List String → String
  | [] => ""
  | [s] => s
  | s :: ss => s ++ "\n" ++ joinNl ss

/-- Helper for relating `String.intercalate` to `joinNl`: the part of the
join that follows the first entry. -/
def tailJoin (sep : String) : List String → String
  | [] => ""
  | s :: ss => sep ++ s ++ tailJoin sep ss

theorem i32wrap_eq_self {x : Int} (h1 : -2 ^ 31 ≤ x) (h2 : x < 2 ^ 31) :
    i32wrap x = x := by
  unfold i32wrap; omega

theorem i32wrap_range (x : Int) : -2 ^ 31 ≤ i32wrap x ∧ i32wrap x < 2 ^ 31 := by
  unfold i32wrap; omega

theorem i32wrap_add_left (x y : Int) : i32wrap (i32wrap x + y) = i32wrap (x + y) := by
  unfold i32wrap; omega

theorem i32_as_usize_of_nonneg {x : Int} (h1 : 0 ≤ x) (h2 : x < 2 ^ 63) :
    i32_as_usize x = x.toNat := by
  unfold i32_as_usize; omega

theorem i32_as_usize_big {x : Int} (h1 : -2 ^ 63 ≤ x) (h2 : x < 0) :
    2 ^ 63 - 1 < i32_as_usize x := by
  unfold i32_as_usize; omega

theorem intercalate_go_eq (sep : String) :
    ∀ (ss : List String) (acc : String),
      String.intercalate.go acc sep ss = acc ++ tailJoin sep ss := by
  intro ss
  induction ss with
  | nil =>
    intro acc
    simp [String.intercalate.go, tailJoin]
  | cons a as ih =>
    intro acc
    simp only [String.intercalate.go, tailJoin, ih, String.append_assoc]

theorem joinNl_cons (a : String) (as : List String) :
    joinNl (a :: as) = a ++ tailJoin "\n" as := by
  induction as generalizing a with
  | nil => simp [joinNl, tailJoin]
  | cons b bs ih => simp only [joinNl, tailJoin, ih, String.append_assoc]

theorem intercalate_eq_joinNl (l : List String) :
    String.intercalate "\n" l = joinNl l := by
  cases l with
  | nil => rfl
  | cons a as => rw [String.intercalate, intercalate_go_eq, joinNl_cons]

/-- When the `i32` product does not overflow (and width and level are
non-negative), `CodeBuffer::println` appends exactly one entry: the prefix of
`indent * level` spaces followed by the text. -/
theorem CodeBuffer.println_eq_of_bounds_i32 (b : CodeBuffer) (s : String)
    (hw : 0 ≤ b.indent) (hl : 0 ≤ b.level) (hb : b.indent * b.level < 2 ^ 31) :
    b.println s =
      some { b with buffer := b.buffer ++ [spaces (b.indent * b.level).toNat ++ s] } := by
  have hprod : 0 ≤ b.indent * b.level := mul_nonneg hw hl
  have hwrap : i32wrap (b.indent * b.level) = b.indent * b.level :=
    i32wrap_eq_self (by omega) hb
  have hcast : i32_as_usize (b.indent * b.level) = (b.indent * b.level).toNat :=
    i32_as_usize_of_nonneg hprod (by omega)
  simp only [CodeBuffer.println, hwrap, hcast]
  rw [if_pos]
  unfold usizeRepeatLimit
  omega

/-- When the wrapped `i32` indent size is negative, the sign-extending cast
exceeds `isize::MAX` and `" ".repeat` panics: `println` appends nothing. -/
theorem CodeBuffer.println_eq_none (b : CodeBuffer) (s : String)
    (h : i32wrap (b.indent * b.level) < 0) : b.println s = none := by
  have hr := i32wrap_range (b.indent * b.level)
  have hbig := i32_as_usize_big (x := i32wrap (b.indent * b.level)) (by omega) h
  simp only [CodeBuffer.println]
  rw [if_neg]
  unfold usizeRepeatLimit
  omega

/-- When the `u32` product does not overflow, `IndentedPrinter::println`
appends exactly one entry: the space prefix followed by the text. -/
theorem IndentedPrinter.println_eq_of_bounds_u32 (p : IndentedPrinter) (s : String)
    (hb : p.indent * p.level < 2 ^ 32) :
    p.println s = { p with buffer := p.buffer ++ [spaces (p.indent * p.level) ++ s] } := by
  simp only [IndentedPrinter.println, Nat.mod_eq_of_lt hb]

/-- C1 (amended): for every buffer state whose indent width `w` and level `l`
are non-negative with `w * l < 2^31` (for the `i32` implementation; `< 2^32`
for the `u32` one), `write_line(text)` appends exactly one new entry at the
end of `lines`, equal to `" ".repeat(w * l) ++ text` with `text` stored
verbatim (embedded newlines included), and changes no other entry. -/
theorem C1_write_line_appends (b : CodeBuffer) (p : IndentedPrinter) (text : String)
    (hw : 0 ≤ b.indent) (hl : 0 ≤ b.level) (hb : b.indent * b.level < 2 ^ 31)
    (hp : p.indent * p.level < 2 ^ 32) :
    b.println text =
      some { b with buffer := b.buffer ++ [spaces (b.indent * b.level).toNat ++ text] } ∧
    p.println text =
      { p with buffer := p.buffer ++ [spaces (p.indent * p.level) ++ text] } :=
  ⟨CodeBuffer.println_eq_of_bounds_i32 b text hw hl hb,
   IndentedPrinter.println_eq_of_bounds_u32 p text hp⟩

/-- C1 witness: at indent width 4 and level 1 the entry `"    b\nc"` (text
with an embedded newline, stored verbatim) is appended after `"a"`. -/
theorem C1_witness :
    CodeBuffer.println { buffer := ["a"], indent := 4, level := 1 } "b\nc" =
      some { buffer := ["a", "    b\nc"], indent := 4, level := 1 } := by
  have h := C1_write_line_appends { buffer := ["a"], indent := 4, level := 1 }
    (IndentedPrinter.new 4) "b\nc" (by decide) (by decide) (by decide) (by decide)
  rw [h.1]
  decide

/-- C1 counterexample: the claim quantifies over every buffer state, but at
the (non-negative) width `2^20` and level `2^11` the `i32` product wraps to
`-2^31`, the cast makes the repeat count `2^64 - 2^31 > isize::MAX`, and
`println` panics instead of appending a line. -/
theorem C1_counterexample :
    CodeBuffer.println { buffer := [], indent := 2 ^ 20, level := 2 ^ 11 } "x" = none := by
  decide

/-- C2: `render` returns the entries of `lines` joined with a single newline
separator in insertion order, and returns `""` for an empty buffer — for both
implementations.  (Rendering is a pure function of the state in this model,
so absence of side effects and idempotence hold by construction.) -/
theorem C2_render_joins (b : CodeBuffer) (p : IndentedPrinter) :
    b.to_string = joinNl b.buffer ∧
    p.to_string = joinNl p.buffer ∧
    (b.buffer = [] → b.to_string = "") ∧
    (p.buffer = [] → p.to_string = "") := by
  refine ⟨intercalate_eq_joinNl b.buffer, intercalate_eq_joinNl p.buffer,
    fun h => ?_, fun h => ?_⟩
  · rw [CodeBuffer.to_string, h]; rfl
  · rw [IndentedPrinter.to_string, h]; rfl

/-- C2 witness: rendering a concrete empty buffer yields the empty string. -/
theorem C2_witness :
    CodeBuffer.to_string { buffer := [], indent := 4, level := 0 } = "" :=
  (C2_render_joins { buffer := [], indent := 4, level := 0 }
    (IndentedPrinter.new 4)).2.2.1 rfl

/-- C4: the scenario `new(4); println "fn f() \x7b"; indent_right; println "x";
indent_left; println "\x7d"` renders as `"fn f() \x7b" ++ "\n" ++ "    x" ++ "\n"
++ "\x7d"`. -/
theorem C4_scenario :
    ((CodeBuffer.new 4).exec
        [Op.println "fn f() \x7b", Op.indent_right, Op.println "x",
         Op.indent_left, Op.println "\x7d"]).map CodeBuffer.to_string =
      some ("fn f() \x7b" ++ "\n" ++ "    " ++ "x" ++ "\n" ++ "\x7d") := by
  decide

/-- C5: `println_right` is exactly `indent_right` followed by `println`,
`println_left` is exactly `indent_left` followed by `println`, and at level 0
`println_left` coincides with `println`. -/
theorem C5_println_right_left_compose (b : CodeBuffer) (s : String) :
    b.println_right s = b.indent_right.println s ∧
    b.println_left s = b.indent_left.println s ∧
    (b.level = 0 → b.println_left s = b.println s) := by
  refine ⟨rfl, rfl, fun h => ?_⟩
  unfold CodeBuffer.println_left CodeBuffer.indent_left
  rw [h]
  simp

/-- C5 witness: at level 0, `println_left` writes exactly what `println`
writes. -/
theorem C5_witness :
    CodeBuffer.println_left { buffer := [], indent := 4, level := 0 } "x" =
      CodeBuffer.println { buffer := [], indent := 4, level := 0 } "x" :=
  (C5_println_right_left_compose { buffer := [], indent := 4, level := 0 } "x").2.2 rfl

/-- `indent_left` never changes the indent width. -/
theorem CodeBuffer.indent_left_indent_i32 (b : CodeBuffer) : b.indent_left.indent = b.indent := by
  unfold CodeBuffer.indent_left
  split <;> rfl

/-- `indent_left` keeps a non-negative level non-negative and never raises it. -/
theorem CodeBuffer.indent_left_level_nonneg (b : CodeBuffer) (h : 0 ≤ b.level) :
    0 ≤ b.indent_left.level ∧ b.indent_left.level ≤ b.level := by
  unfold CodeBuffer.indent_left
  split
  · rename_i hpos
    exact ⟨by show (0:Int) ≤ b.level - 1; omega, by show b.level - 1 ≤ b.level; omega⟩
  · exact ⟨h, le_refl _⟩

/-- A successful `println` changes neither the level nor the indent width. -/
theorem CodeBuffer.println_some_parts {b b2 : CodeBuffer} {s : String}
    (h : b.println s = some b2) : b2.level = b.level ∧ b2.indent = b.indent := by
  simp only [CodeBuffer.println] at h
  split at h
  · injection h with h2
    rw [← h2]
    exact ⟨rfl, rfl⟩
  · exact Option.noConfusion h

/-- One successful operation keeps the level in `[0, level + 1]` and the
indent width fixed, provided the level cannot overflow. -/
theorem CodeBuffer.applyOp_level {b b2 : CodeBuffer} {op : Op}
    (h : b.applyOp op = some b2) (h0 : 0 ≤ b.level) (h1 : b.level + 1 < 2 ^ 31) :
    (0 ≤ b2.level ∧ b2.level ≤ b.level + 1) ∧ b2.indent = b.indent := by
  have hwrap : i32wrap (b.level + 1) = b.level + 1 := i32wrap_eq_self (by omega) h1
  cases op with
  | println s =>
    have h' : b.println s = some b2 := h
    obtain ⟨hl, hi⟩ := CodeBuffer.println_some_parts h'
    exact ⟨⟨by omega, by omega⟩, hi⟩
  | indent_right =>
    have h' : some b.indent_right = some b2 := h
    have hb : b.indent_right = b2 := by injection h'
    subst hb
    refine ⟨⟨?_, ?_⟩, rfl⟩
    · show 0 ≤ i32wrap (b.level + 1)
      rw [hwrap]; omega
    · show i32wrap (b.level + 1) ≤ b.level + 1
      rw [hwrap]
  | indent_left =>
    have h' : some b.indent_left = some b2 := h
    have hb : b.indent_left = b2 := by injection h'
    subst hb
    obtain ⟨ha, hb'⟩ := CodeBuffer.indent_left_level_nonneg b h0
    exact ⟨⟨ha, by omega⟩, CodeBuffer.indent_left_indent_i32 b⟩
  | println_right s =>
    have h' : b.indent_right.println s = some b2 := h
    obtain ⟨hl, hi⟩ := CodeBuffer.println_some_parts h'
    have hlev : b.indent_right.level = b.level + 1 := hwrap
    have hind : b.indent_right.indent = b.indent := rfl
    rw [hlev] at hl
    rw [hind] at hi
    exact ⟨⟨by omega, by omega⟩, hi⟩
  | println_left s =>
    have h' : b.indent_left.println s = some b2 := h
    obtain ⟨hl, hi⟩ := CodeBuffer.println_some_parts h'
    obtain ⟨ha, hb'⟩ := CodeBuffer.indent_left_level_nonneg b h0
    rw [CodeBuffer.indent_left_indent_i32] at hi
    exact ⟨⟨by omega, by omega⟩, hi⟩

/-- Running a sequence of at most `2^31 - 1 - level` further operations from a
state with a non-negative level keeps the level non-negative (and bounded by
the number of operations run), and never changes the indent width. -/
theorem CodeBuffer.exec_level_invariant :
    ∀ (ops : List Op) (b b2 : CodeBuffer),
      0 ≤ b.level → b.level + (ops.length : Int) < 2 ^ 31 →
      b.exec ops = some b2 →
      (0 ≤ b2.level ∧ b2.level ≤ b.level + (ops.length : Int)) ∧ b2.indent = b.indent := by
  intro ops
  induction ops with
  | nil =>
    intro b b2 h0 h1 he
    have hsome : some b = some b2 := he
    have hb : b = b2 := by injection hsome
    subst hb
    exact ⟨⟨h0, by simp⟩, rfl⟩
  | cons op ops ih =>
    intro b b2 h0 h1 he
    have hlist : (List.length (op :: ops) : Int) = (ops.length : Int) + 1 := by
      push_cast [List.length_cons]
      ring
    have hbind : (b.applyOp op).bind (fun x => CodeBuffer.exec x ops) = some b2 := he
    cases hop : b.applyOp op with
    | none =>
      rw [hop] at hbind
      exact Option.noConfusion hbind
    | some b3 =>
      rw [hop] at hbind
      have he3 : b3.exec ops = some b2 := hbind
      have hstep := CodeBuffer.applyOp_level hop h0 (by rw [hlist] at h1; omega)
      have hres := ih b3 b2 hstep.1.1 (by rw [hlist] at h1; omega) he3
      refine ⟨⟨hres.1.1, ?_⟩, hres.2.trans hstep.2⟩
      rw [hlist]
      have h2 := hres.1.2
      have h3 := hstep.1.2
      omega

/-- `n` wrapped level increments compute `i32wrap (level + n)`; the buffer and
the indent width are untouched. -/
theorem CodeBuffer.exec_replicate_indent_right :
    ∀ (n : Nat) (b : CodeBuffer), -2 ^ 31 ≤ b.level → b.level < 2 ^ 31 →
      b.exec (List.replicate n Op.indent_right) =
        some { b with level := i32wrap (b.level + (n : Int)) } := by
  intro n
  induction n with
  | zero =>
    intro b h1 h2
    show some b = _
    rw [Nat.cast_zero, add_zero, i32wrap_eq_self h1 h2]
  | succ n ih =>
    intro b h1 h2
    have hr := i32wrap_range (b.level + 1)
    have step : b.exec (List.replicate (n + 1) Op.indent_right) =
        b.indent_right.exec (List.replicate n Op.indent_right) := rfl
    rw [step, ih b.indent_right hr.1 hr.2]
    have harg : i32wrap (b.indent_right.level + (n : Int)) =
        i32wrap (b.level + ((n : Nat) + 1 : Nat)) := by
      show i32wrap (i32wrap (b.level + 1) + (n : Int)) = _
      rw [i32wrap_add_left]
      congr 1
      push_cast
      ring
    rw [harg]
    rfl

/-- C10: `CodeBuffer::new` accepts the negative width `-1`; after one
`indent_right` the level is 1, the wrapped product `-1 * 1` is negative, the
`as usize` cast turns it into the enormous repeat count `2^64 - 1`, and the
`println` call panics (models as `none`) instead of appending a line. -/
theorem C10_negative_width_not_total :
    (CodeBuffer.new (-1)).indent_right.level = 1 ∧
    (CodeBuffer.new (-1)).indent_right.indent = -1 ∧
    i32_as_usize (i32wrap (-1 * 1)) = 2 ^ 64 - 1 ∧
    (CodeBuffer.new (-1)).indent_right.println "x" = none := by
  decide

/-- C3 (amended): the invariant `level ≥ 0` holds in every state reachable
from `new(w)` or `default()` by a sequence of fewer than `2^31` operations
(beyond that, the i32 level can wrap); `decrease_indent` at level 0 is a
silent no-op that leaves the state — in particular the level — unchanged, and
at positive level it decrements the level by exactly 1. -/
theorem C3_level_invariant (w : Int) (ops : List Op) (b : CodeBuffer)
    (hlen : (ops.length : Int) < 2 ^ 31)
    (hr : (CodeBuffer.new w).exec ops = some b ∨ CodeBuffer.default.exec ops = some b) :
    0 ≤ b.level ∧
    (b.level = 0 → b.indent_left = b) ∧
    (0 < b.level → b.indent_left.level = b.level - 1) := by
  have h0 : 0 ≤ b.level := by
    rcases hr with h | h
    · exact (CodeBuffer.exec_level_invariant ops (CodeBuffer.new w) b le_rfl
        (by show (0:Int) + _ < _; omega) h).1.1
    · exact (CodeBuffer.exec_level_invariant ops CodeBuffer.default b le_rfl
        (by show (0:Int) + _ < _; omega) h).1.1
  refine ⟨h0, fun h => ?_, fun h => ?_⟩
  · unfold CodeBuffer.indent_left
    rw [h]
    simp
  · unfold CodeBuffer.indent_left
    rw [if_pos h]

/-- C3 witness: `new(4)` followed by a `decrease_indent` at level 0 reaches a
state with level 0, on which the floor behavior is exhibited. -/
theorem C3_witness :
    0 ≤ ({ buffer := [], indent := 4, level := 0 } : CodeBuffer).level ∧
    (({ buffer := [], indent := 4, level := 0 } : CodeBuffer).level = 0 →
      ({ buffer := [], indent := 4, level := 0 } : CodeBuffer).indent_left =
        { buffer := [], indent := 4, level := 0 }) ∧
    (0 < ({ buffer := [], indent := 4, level := 0 } : CodeBuffer).level →
      ({ buffer := [], indent := 4, level := 0 } : CodeBuffer).indent_left.level =
        ({ buffer := [], indent := 4, level := 0 } : CodeBuffer).level - 1) :=
  C3_level_invariant 4 [Op.indent_left] { buffer := [], indent := 4, level := 0 }
    (by decide) (Or.inl (by decide))

/-- C3 counterexample: `2^31` successive `indent_right` calls are a sequence
of operations after which the i32 level has wrapped to `-2^31 < 0`, so the
claimed invariant does not hold in every reachable state. -/
theorem C3_counterexample :
    (CodeBuffer.new 4).exec (List.replicate (2 ^ 31) Op.indent_right) =
      some { buffer := [], indent := 4, level := -2 ^ 31 } ∧
    (-2 ^ 31 : Int) < 0 := by
  constructor
  · rw [CodeBuffer.exec_replicate_indent_right (2 ^ 31) (CodeBuffer.new 4)
      (by decide) (by decide)]
    decide
  · decide

/-- C6 (amended): the three write operations are total — return a state
rather than panicking — on every state whose indent width is non-negative and
whose level satisfies `level ≥ 0`, `level + 1 < 2^31` and
`indent * (level + 1) < 2^31`; outside those bounds `println` can panic
(C10).  The remaining operations (`new`, `default`, `increase_indent`,
`decrease_indent`, `render`) are total functions of the model by
construction. -/
theorem C6_totality (b : CodeBuffer) (s : String)
    (hw : 0 ≤ b.indent) (hl : 0 ≤ b.level) (hl2 : b.level + 1 < 2 ^ 31)
    (hp : b.indent * (b.level + 1) < 2 ^ 31) :
    (b.println s).isSome ∧ (b.println_right s).isSome ∧ (b.println_left s).isSome := by
  have hb : b.indent * b.level < 2 ^ 31 := by
    calc b.indent * b.level ≤ b.indent * (b.level + 1) :=
          mul_le_mul_of_nonneg_left (by omega) hw
      _ < 2 ^ 31 := hp
  refine ⟨?_, ?_, ?_⟩
  · rw [CodeBuffer.println_eq_of_bounds_i32 b s hw hl hb]
    rfl
  · unfold CodeBuffer.println_right
    have hlev : b.indent_right.level = b.level + 1 := i32wrap_eq_self (by omega) hl2
    have hw' : 0 ≤ b.indent_right.indent := hw
    have hl' : 0 ≤ b.indent_right.level := by rw [hlev]; omega
    have hb' : b.indent_right.indent * b.indent_right.level < 2 ^ 31 := by
      show b.indent * b.indent_right.level < 2 ^ 31
      rw [hlev]
      exact hp
    rw [CodeBuffer.println_eq_of_bounds_i32 b.indent_right s hw' hl' hb']
    rfl
  · unfold CodeBuffer.println_left
    obtain ⟨ha, hb2⟩ := CodeBuffer.indent_left_level_nonneg b hl
    have hw' : 0 ≤ b.indent_left.indent := by
      rw [CodeBuffer.indent_left_indent_i32]
      exact hw
    have hb' : b.indent_left.indent * b.indent_left.level < 2 ^ 31 := by
      rw [CodeBuffer.indent_left_indent_i32]
      calc b.indent * b.indent_left.level ≤ b.indent * (b.level + 1) :=
            mul_le_mul_of_nonneg_left (by omega) hw
        _ < 2 ^ 31 := hp
    rw [CodeBuffer.println_eq_of_bounds_i32 b.indent_left s hw' ha hb']
    rfl

/-- C6 witness: at indent width 2 and level 3 all three write operations
succeed. -/
theorem C6_witness :
    (CodeBuffer.println { buffer := [], indent := 2, level := 3 } "y").isSome ∧
    (CodeBuffer.println_right { buffer := [], indent := 2, level := 3 } "y").isSome ∧
    (CodeBuffer.println_left { buffer := [], indent := 2, level := 3 } "y").isSome :=
  C6_totality { buffer := [], indent := 2, level := 3 } "y"
    (by decide) (by decide) (by decide) (by decide)

/-- C6 counterexample: `new` accepts the width `-5`; after one
`increase_indent` the (accepted) `println` input panics — the buffer
component is not total over all accepted inputs. -/
theorem C6_counterexample :
    (CodeBuffer.new (-5)).indent_right.println "x" = none := by
  decide

/-- C8 (amended): `increase_indent` increments the level by exactly 1 on
every state whose level satisfies `-2^31 ≤ level` and `level + 1 < 2^31`, and
for every `n < 2^31`, `n` successive `increase_indent` calls from a fresh
buffer leave the level equal to `n`; at `n = 2^31` the i32 level wraps to
`-2^31` instead (no larger bound is enforced below that). -/
theorem C8_increase_indent (b : CodeBuffer) (w : Int) (n : Nat)
    (hb1 : -2 ^ 31 ≤ b.level) (hb2 : b.level + 1 < 2 ^ 31) (hn : (n : Int) < 2 ^ 31) :
    b.indent_right.level = b.level + 1 ∧
    (CodeBuffer.new w).exec (List.replicate n Op.indent_right) =
      some { buffer := [], indent := w, level := (n : Int) } := by
  constructor
  · show i32wrap (b.level + 1) = b.level + 1
    exact i32wrap_eq_self (by omega) hb2
  · rw [CodeBuffer.exec_replicate_indent_right n (CodeBuffer.new w)
      (by show (-2:Int) ^ 31 ≤ 0; norm_num) (by show (0:Int) < 2 ^ 31; norm_num)]
    have h : i32wrap ((CodeBuffer.new w).level + (n : Int)) = (n : Int) := by
      show i32wrap (0 + (n : Int)) = (n : Int)
      rw [zero_add]
      exact i32wrap_eq_self (by omega) hn
    rw [h]
    rfl

/-- C8 witness: two `increase_indent` calls from `new(4)` leave level 2, and
a single call at level 0 moves to level 1. -/
theorem C8_witness :
    ({ buffer := [], indent := 4, level := 0 } : CodeBuffer).indent_right.level =
      ({ buffer := [], indent := 4, level := 0 } : CodeBuffer).level + 1 ∧
    (CodeBuffer.new 4).exec (List.replicate 2 Op.indent_right) =
      some { buffer := [], indent := 4, level := ((2 : Nat) : Int) } :=
  C8_increase_indent { buffer := [], indent := 4, level := 0 } 4 2
    (by decide) (by decide) (by decide)

/-- C8 counterexample: after `2^31` successive `increase_indent` calls from a
fresh buffer the level is not `2^31` (it has wrapped to `-2^31`), so "for
every n, n calls leave level n" fails. -/
theorem C8_counterexample :
    ((CodeBuffer.new 4).exec (List.replicate (2 ^ 31) Op.indent_right)).map CodeBuffer.level =
      some (-2 ^ 31) ∧ (-2 ^ 31 : Int) ≠ 2 ^ 31 := by
  constructor
  · rw [CodeBuffer.exec_replicate_indent_right (2 ^ 31) (CodeBuffer.new 4)
      (by decide) (by decide)]
    decide
  · decide

/-- `IndentedPrinter.indent_left` never changes the indent width. -/
theorem IndentedPrinter.indent_left_indent_u32 (p : IndentedPrinter) :
    p.indent_left.indent = p.indent := by
  unfold IndentedPrinter.indent_left
  split <;> rfl

/-- `IndentedPrinter.indent_left` never changes the buffer. -/
theorem IndentedPrinter.indent_left_buffer_u32 (p : IndentedPrinter) :
    p.indent_left.buffer = p.buffer := by
  unfold IndentedPrinter.indent_left
  split <;> rfl

/-- `IndentedPrinter.indent_left` never raises the level. -/
theorem IndentedPrinter.indent_left_level_le (p : IndentedPrinter) :
    p.indent_left.level ≤ p.level := by
  unfold IndentedPrinter.indent_left
  split
  · show p.level - 1 ≤ p.level
    omega
  · exact le_rfl

/-- `CodeBuffer.indent_left` never changes the buffer. -/
theorem CodeBuffer.indent_left_buffer_i32 (b : CodeBuffer) :
    b.indent_left.buffer = b.buffer := by
  unfold CodeBuffer.indent_left
  split <;> rfl

/-- An i32 buffer and a u32 printer with the same level perform the same
`indent_left`. -/
theorem indent_left_level_equiv (b : CodeBuffer) (p : IndentedPrinter)
    (hlev : b.level = (p.level : Int)) :
    b.indent_left.level = (p.indent_left.level : Int) := by
  unfold CodeBuffer.indent_left IndentedPrinter.indent_left
  by_cases h : 0 < p.level
  · rw [if_pos h, if_pos (show b.level > 0 by omega)]
    show b.level - 1 = ((p.level - 1 : Nat) : Int)
    omega
  · rw [if_neg h, if_neg (show ¬ b.level > 0 by omega)]
    exact hlev

/-- An i32 buffer and a u32 printer with the same (non-overflowing) level
perform the same `indent_right`. -/
theorem indent_right_level_equiv (b : CodeBuffer) (p : IndentedPrinter)
    (hlev : b.level = (p.level : Int)) (hb1 : p.level + 1 < 2 ^ 31) :
    b.indent_right.level = (p.indent_right.level : Int) := by
  show i32wrap (b.level + 1) = (((p.level + 1) % 2 ^ 32 : Nat) : Int)
  unfold i32wrap
  omega

/-- An i32 buffer and a u32 printer related state-wise perform the same
`println` when the u32 product stays below `2^31`. -/
theorem println_equiv (s : String) (b : CodeBuffer) (p : IndentedPrinter)
    (hw : b.indent = (p.indent : Int)) (hbuf : b.buffer = p.buffer)
    (hlev : b.level = (p.level : Int)) (hp31 : p.indent * p.level < 2 ^ 31) :
    b.println s = some { b with buffer := b.buffer ++ [spaces (p.indent * p.level) ++ s] } ∧
    p.println s = { p with buffer := p.buffer ++ [spaces (p.indent * p.level) ++ s] } := by
  have hcast : b.indent * b.level = ((p.indent * p.level : Nat) : Int) := by
    rw [hw, hlev]
    push_cast
    ring
  have hbn : b.indent * b.level < 2 ^ 31 := by
    rw [hcast]
    exact_mod_cast hp31
  have htonat : (b.indent * b.level).toNat = p.indent * p.level := by
    rw [hcast]
    exact Int.toNat_natCast _
  constructor
  · rw [CodeBuffer.println_eq_of_bounds_i32 b s (by rw [hw]; positivity)
      (by rw [hlev]; positivity) hbn, htonat]
  · exact IndentedPrinter.println_eq_of_bounds_u32 p s (by omega)

/-- One operation applied to related i32/u32 states succeeds on the i32 side
and yields related states, provided the u32 level and product cannot reach
the i32 overflow bound. -/
theorem applyOp_equiv (op : Op) (b : CodeBuffer) (p : IndentedPrinter)
    (hw : b.indent = (p.indent : Int)) (hbuf : b.buffer = p.buffer)
    (hlev : b.level = (p.level : Int))
    (hb1 : p.level + 1 < 2 ^ 31) (hb2 : p.indent * (p.level + 1) < 2 ^ 31) :
    ∃ b2, b.applyOp op = some b2 ∧ b2.indent = b.indent ∧
      b2.buffer = (p.applyOp op).buffer ∧ b2.level = ((p.applyOp op).level : Int) ∧
      (p.applyOp op).indent = p.indent ∧ (p.applyOp op).level ≤ p.level + 1 := by
  cases op with
  | println s =>
    have hp31 : p.indent * p.level < 2 ^ 31 :=
      lt_of_le_of_lt (Nat.mul_le_mul_left _ (Nat.le_succ _)) hb2
    obtain ⟨hcb, hip⟩ := println_equiv s b p hw hbuf hlev hp31
    refine ⟨_, hcb, rfl, ?_, hlev, rfl, Nat.le_succ _⟩
    show b.buffer ++ _ = (p.println s).buffer
    rw [hip, hbuf]
  | indent_right =>
    refine ⟨b.indent_right, rfl, rfl, hbuf, ?_, rfl, ?_⟩
    · exact indent_right_level_equiv b p hlev hb1
    · show (p.level + 1) % 2 ^ 32 ≤ p.level + 1
      exact Nat.mod_le _ _
  | indent_left =>
    refine ⟨b.indent_left, rfl, CodeBuffer.indent_left_indent_i32 b, ?_, ?_,
      IndentedPrinter.indent_left_indent_u32 p, ?_⟩
    · rw [CodeBuffer.indent_left_buffer_i32]
      show b.buffer = p.indent_left.buffer
      rw [IndentedPrinter.indent_left_buffer_u32]
      exact hbuf
    · exact indent_left_level_equiv b p hlev
    · exact le_trans (IndentedPrinter.indent_left_level_le p) (Nat.le_succ _)
  | println_right s =>
    have hlev2 : b.indent_right.level = (p.indent_right.level : Int) :=
      indent_right_level_equiv b p hlev hb1
    have hmod : p.indent_right.level = p.level + 1 := Nat.mod_eq_of_lt (by omega)
    have hp31 : p.indent_right.indent * p.indent_right.level < 2 ^ 31 := by
      show p.indent * p.indent_right.level < 2 ^ 31
      rw [hmod]
      exact hb2
    obtain ⟨hcb, hip⟩ := println_equiv s b.indent_right p.indent_right hw hbuf hlev2 hp31
    refine ⟨_, hcb, rfl, ?_, hlev2, rfl, ?_⟩
    · show b.buffer ++ _ = (p.println_right s).buffer
      show b.buffer ++ _ = (p.indent_right.println s).buffer
      rw [hip, hbuf]
      rfl
    · show p.indent_right.level ≤ p.level + 1
      rw [hmod]
  | println_left s =>
    have hlev2 : b.indent_left.level = (p.indent_left.level : Int) :=
      indent_left_level_equiv b p hlev
    have hwl : b.indent_left.indent = (p.indent_left.indent : Int) := by
      rw [CodeBuffer.indent_left_indent_i32, IndentedPrinter.indent_left_indent_u32]
      exact hw
    have hbufl : b.indent_left.buffer = p.indent_left.buffer := by
      rw [CodeBuffer.indent_left_buffer_i32, IndentedPrinter.indent_left_buffer_u32]
      exact hbuf
    have hp31 : p.indent_left.indent * p.indent_left.level < 2 ^ 31 := by
      rw [IndentedPrinter.indent_left_indent_u32]
      calc p.indent * p.indent_left.level
          ≤ p.indent * (p.level + 1) :=
            Nat.mul_le_mul_left _ (le_trans (IndentedPrinter.indent_left_level_le p) (Nat.le_succ _))
        _ < 2 ^ 31 := hb2
    obtain ⟨hcb, hip⟩ := println_equiv s b.indent_left p.indent_left hwl hbufl hlev2 hp31
    refine ⟨_, hcb, CodeBuffer.indent_left_indent_i32 b, ?_, hlev2, IndentedPrinter.indent_left_indent_u32 p, ?_⟩
    · show b.indent_left.buffer ++ _ = (p.println_left s).buffer
      show b.indent_left.buffer ++ _ = (p.indent_left.println s).buffer
      rw [hip, hbufl]
    · show p.indent_left.level ≤ p.level + 1
      exact le_trans (IndentedPrinter.indent_left_level_le p) (Nat.le_succ _)

/-- Running the same operation sequence on related i32/u32 states: the i32
run succeeds and both runs build the same line list, provided the level and
the indent-times-level product stay below `2^31` throughout. -/
theorem exec_equiv :
    ∀ (ops : List Op) (b : CodeBuffer) (p : IndentedPrinter),
      b.indent = (p.indent : Int) → b.buffer = p.buffer → b.level = (p.level : Int) →
      p.level + ops.length < 2 ^ 31 → p.indent * (p.level + ops.length) < 2 ^ 31 →
      ∃ b2, b.exec ops = some b2 ∧ b2.buffer = (p.exec ops).buffer := by
  intro ops
  induction ops with
  | nil =>
    intro b p hw hbuf hlev h1 h2
    exact ⟨b, rfl, hbuf⟩
  | cons op ops ih =>
    intro b p hw hbuf hlev h1 h2
    have hlen : (op :: ops).length = ops.length + 1 := List.length_cons op ops
    rw [hlen] at h1 h2
    obtain ⟨b3, hop, hind, hbuf3, hlev3, hpind, hple⟩ := applyOp_equiv op b p hw hbuf hlev
      (by omega)
      (lt_of_le_of_lt (Nat.mul_le_mul_left _ (by omega)) h2)
    obtain ⟨b4, hexec4, hbuf4⟩ := ih b3 (p.applyOp op)
      (by rw [hind, hw, hpind])
      hbuf3 hlev3
      (by omega)
      (by
        rw [hpind]
        exact lt_of_le_of_lt (Nat.mul_le_mul_left _ (by omega)) h2)
    refine ⟨b4, ?_, hbuf4⟩
    show (b.applyOp op).bind (fun x => CodeBuffer.exec x ops) = some b4
    rw [hop]
    exact hexec4

/-- C7 (amended): for every indent width `w < 2^31` and every operation
sequence whose length `L` satisfies `L < 2^31` and `w * L < 2^31`, running
the sequence on `CodeBuffer::new(w)` succeeds and yields the same
`to_string()` as running it on `IndentedPrinter::new(w)`.  (Outside these
bounds the i32 arithmetic of `CodeBuffer` diverges from the u32 arithmetic of
`IndentedPrinter`.) -/
theorem C7_buffer_printer_equiv (wn : Nat) (ops : List Op)
    (hw : wn < 2 ^ 31) (hlen : ops.length < 2 ^ 31) (hprod : wn * ops.length < 2 ^ 31) :
    ∃ b, (CodeBuffer.new (wn : Int)).exec ops = some b ∧
      b.to_string = ((IndentedPrinter.new wn).exec ops).to_string := by
  obtain ⟨b, he, hbuf⟩ := exec_equiv ops (CodeBuffer.new (wn : Int)) (IndentedPrinter.new wn)
    rfl rfl rfl
    (by show (0:Nat) + ops.length < 2 ^ 31; omega)
    (by show wn * ((0:Nat) + ops.length) < 2 ^ 31; rw [Nat.zero_add]; exact hprod)
  refine ⟨b, he, ?_⟩
  show String.intercalate "\n" b.buffer = String.intercalate "\n" ((IndentedPrinter.new wn).exec ops).buffer
  rw [hbuf]

/-- C7 witness: width 4 and the sequence `println "a"; println_right "b"`
produce identical rendered output from both implementations. -/
theorem C7_witness :
    ∃ b, (CodeBuffer.new ((4 : Nat) : Int)).exec [Op.println "a", Op.println_right "b"] = some b ∧
      b.to_string = ((IndentedPrinter.new 4).exec [Op.println "a", Op.println_right "b"]).to_string :=
  C7_buffer_printer_equiv 4 [Op.println "a", Op.println_right "b"]
    (by decide) (by decide) (by decide)

/-- C7 counterexample: with the non-negative width `2^30`, two
`increase_indent` calls followed by a write make the i32 implementation panic
(its wrapped product is negative, so `exec` yields `none`), while the u32
implementation is total by construction — the two implementations are not
behaviorally equivalent over every operation sequence. -/
theorem C7_counterexample :
    (CodeBuffer.new ((2 ^ 30 : Nat) : Int)).exec
      [Op.indent_right, Op.indent_right, Op.println "x"] = none := by
  decide

/-- C9: `flush_to_file` hands exactly the UTF-8 bytes of the rendered text to
the single write call of the file handle and returns the outcome of that call — byte count
or failure — unmodified, never swallowing or transforming the error; the
printer is only read (`&self`), so the buffer state is unchanged whether the
write succeeds or fails (the model is a pure function of `p`). -/
theorem C9_flush_passthrough {ε : Type} (p : IndentedPrinter)
    (write : ByteArray → Except ε Nat) :
    p.flush_to_file write = write p.to_string.toUTF8 ∧
    (∀ n, write p.to_string.toUTF8 = Except.ok n → p.flush_to_file write = Except.ok n) ∧
    (∀ e, write p.to_string.toUTF8 = Except.error e → p.flush_to_file write = Except.error e) := by
  refine ⟨rfl, fun n h => ?_, fun e h => ?_⟩
  · rw [← h]
    rfl
  · rw [← h]
    rfl

/-- C9 witness: the successful result of a concrete write call is returned
unmodified. -/
theorem C9_witness :
    IndentedPrinter.flush_to_file (IndentedPrinter.new 4)
      (fun _ => (Except.ok 7 : Except Unit Nat)) = Except.ok 7 :=
  (C9_flush_passthrough (IndentedPrinter.new 4) (fun _ => Except.ok 7)).2.1 7 rfl
